import Mathlib

/-!
Shallow embedding of the chapter-segmentation and EPUB-packaging engine of
`src/app.py` (a TXT to EPUB converter), together with theorems settling the
specification claims C1 to C10.

Conventions of the embedding:
* Python strings are Lean `String`s (sequences of unicode code points); the
  regular-expression tests of `is_chapter_title` are hand-compiled to
  deterministic matchers on `List Char` (each pattern is anchored and has no
  ambiguous backtracking, noted case by case below).
* `html.escape` (with its default `quote=True`) is `html_escape`.
* The zip archive produced by `build_epub_buffer` is the ordered list of
  written entries `build_entries`; `zipfile.ZIP_STORED` for the mimetype entry
  is the Boolean field `stored`.
* Ambient effects are parameters: `has_font` stands for
  `os.path.exists("RIDIBatang.otf")`, `fontBytes` for the bytes read from that
  file, `book_id` for `str(uuid.uuid4())`, `cover` for
  `st.session_state.final_cover_io` and its `getvalue()` bytes.
-/

namespace EpubConv

/-- Whitespace characters: the embedding of the Python `str.strip` and of the
regex class `\s` (ASCII range). -/
def isWS (c : Char) : Bool :=
  c = ' ' || c = '\t' || c = '\n' || c = '\r' || c = '\x0b' || c = '\x0c'

/-- Strip leading and trailing whitespace from a character list
(`str.strip()`). -/
def stripList (l : List Char) : List Char :=
  ((l.dropWhile isWS).reverse.dropWhile isWS).reverse

/-- `line.strip()` on strings. -/
def stripStr (s : String) : String := ⟨stripList s.data⟩

/-- Concatenation of the images of `f`; used in place of Python list
comprehensions that flatten. -/
def flatMapL (f : α → List β) : List α → List β
  | [] => []
  | x :: xs => f x ++ flatMapL f xs

/-- The apostrophe character, written by code to avoid a quote-in-quote
literal. -/
def quoteC : Char := Char.ofNat 39

/-- Per-character translation of the Python `html.escape` with `quote=True`:
`&`, `<`, `>`, `"` and the apostrophe are replaced by entities, every other
character is kept. -/
def escChar (c : Char) : List Char :=
  if c = '&' then "&amp;".data
  else if c = '<' then "&lt;".data
  else if c = '>' then "&gt;".data
  else if c = '"' then "&quot;".data
  else if c = quoteC then "&#x27;".data
  else [c]

/-- `html.escape` on character lists. -/
def escList : List Char → List Char
  | [] => []
  | c :: r => escChar c ++ escList r

/-- `html.escape(s, quote=True)`. -/
def html_escape (s : String) : String := ⟨escList s.data⟩

/-- After an ampersand, decode one of the five entity tails produced by
`html_escape`; the five tails start with pairwise distinct characters, so the
order of the tests is immaterial. -/
def entStep (r : List Char) : Option (Char × List Char) :=
  if "amp;".data.isPrefixOf r then some ('&', r.drop 4)
  else if "lt;".data.isPrefixOf r then some ('<', r.drop 3)
  else if "gt;".data.isPrefixOf r then some ('>', r.drop 3)
  else if "quot;".data.isPrefixOf r then some ('"', r.drop 5)
  else if "#x27;".data.isPrefixOf r then some (quoteC, r.drop 5)
  else none

/-- Decoder of the five entities produced by `html_escape`; the left inverse
used to state the "unescaped body lines" part of claim C1. -/
def unescChars : List Char → List Char
  | [] => []
  | c :: r =>
    if c = '&' then
      match hm : entStep r with
      | some (d, r2) => d :: unescChars r2
      | none => c :: unescChars r
    else c :: unescChars r
  termination_by l => l.length
  decreasing_by
    · unfold entStep at hm
      split_ifs at hm <;> (cases hm; simp [List.length_drop]; omega)
    · simp
    · simp

/-- HTML-entity decoding on strings (inverse of `html_escape`). -/
def html_unescape (s : String) : String := ⟨unescChars s.data⟩

/-- Decimal digit characters, the embedding of the Python `str(i)` for digits
`0..9`. -/
def digitChar (d : Nat) : Char := Char.ofNat (48 + d)

/-- Decimal rendering of a natural number, the embedding of the Python
`str(i)` / f-string interpolation of an integer. -/
def natDigits (n : Nat) : List Char :=
  if n < 10 then [digitChar n]
  else natDigits (n / 10) ++ [digitChar (n % 10)]
  decreasing_by exact Nat.div_lt_self (by omega) (by omega)

/-- Decimal rendering as a `String`. -/
def natStr (n : Nat) : String := ⟨natDigits n⟩

/-- Substring occurrence of `pat` in `hay` (the Python `pat in hay` on
strings). -/
def subList (pat : List Char) : List Char → Bool
  | [] => pat.isEmpty
  | c :: r => pat.isPrefixOf (c :: r) || subList pat r

/-- `pat in hay` for strings. -/
def containsSub (hay pat : String) : Bool := subList pat.data hay.data

/-! ### The matchers of `is_chapter_title` (src/app.py lines 147-175)

Each regex of the Python source is compiled to a matcher on the stripped
character list.  All patterns are anchored at the start (`re.match`); in every
pattern the bounded or optional pieces are followed by a character of a
disjoint class, so greedy matching is deterministic and no backtracking case
is lost, except in the date pattern where the two widths of `\d{1,2}` are
tried explicitly. -/

/-- One-or-more digits (`\d+`), greedy; returns the rest on success. -/
def takeDigits1 (l : List Char) : Option (List Char) :=
  match l with
  | c :: r => if c.isDigit then some (r.dropWhile Char.isDigit) else none
  | [] => none

/-- Optional single whitespace (`\s?`). -/
def optWS (l : List Char) : List Char :=
  match l with
  | c :: r => if isWS c then r else c :: r
  | [] => []

/-- Unit suffixes of the first pattern (`[화장회절편부권]`). -/
def unitChars : List Char := ['화', '장', '회', '절', '편', '부', '권']

/-- Pattern `^제\s?\d+\s?[화장회절편부권]`. -/
def pat1 (l : List Char) : Bool :=
  match l with
  | '제' :: r =>
    match takeDigits1 (optWS r) with
    | some r2 =>
      match optWS r2 with
      | u :: _ => unitChars.contains u
      | [] => false
    | none => false
  | _ => false

/-- Pattern `^\d+\s*[.-]\s*\S`: leading integer, then a period or hyphen
separator, then some non-space content. -/
def pat2 (l : List Char) : Bool :=
  match takeDigits1 l with
  | some r =>
    match r.dropWhile isWS with
    | c :: r2 => (c = '.' || c = '-') && !(r2.dropWhile isWS).isEmpty
    | [] => false
  | none => false

/-- Pattern `^[Chapter|CHAPTER|chapter]\s+\d+` (a character class!) with
`re.IGNORECASE`: any single character of the class, one or more spaces, a
digit. -/
def pat3 (l : List Char) : Bool :=
  match l with
  | c :: r =>
    (c.toLower ∈ ['c', 'h', 'a', 'p', 't', 'e', 'r', '|']) &&
      (match r with
       | w :: r2 =>
         isWS w &&
           (match r2.dropWhile isWS with
            | d :: _ => d.isDigit
            | [] => false)
       | [] => false)
  | [] => false

/-- Pattern `^[EP|ep|Ep]\s*\.?\s*\d+` (a character class) with
`re.IGNORECASE`. -/
def pat4 (l : List Char) : Bool :=
  match l with
  | c :: r =>
    (c.toLower ∈ ['e', 'p', '|']) &&
      (match (match r.dropWhile isWS with
              | '.' :: t => t
              | t => t).dropWhile isWS with
       | d :: _ => d.isDigit
       | [] => false)
  | [] => false

/-- Pattern `^\[\s*\d+\s*\]`. -/
def pat5 (l : List Char) : Bool :=
  match l with
  | '[' :: r =>
    match takeDigits1 (r.dropWhile isWS) with
    | some r2 =>
      match r2.dropWhile isWS with
      | ']' :: _ => true
      | _ => false
    | none => false
  | _ => false

/-- Pattern `^[프롤로그|에필로그|프olog|epilogue]` (a character class) with
`re.IGNORECASE`: any line whose first character belongs to the class. -/
def pat6 (l : List Char) : Bool :=
  match l with
  | c :: _ =>
    c.toLower ∈ ['프', '롤', '로', '그', '|', '에', '필', 'o', 'l', 'g', 'e', 'p', 'i', 'u']
  | [] => false

/-- Pattern `^\d+$`: a line consisting solely of digits. -/
def pat7 (l : List Char) : Bool := !l.isEmpty && l.all Char.isDigit

/-- The ordered pattern list of the Python source. -/
def titlePatterns : List (List Char → Bool) :=
  [pat1, pat2, pat3, pat4, pat5, pat6, pat7]

/-- One occurrence position of the score guard `\d+\s?대\s?\d+`; searching at
every position, a single trailing digit of the `\d+` run suffices, so
existence of a regex match is existence of a position where this matcher
succeeds. -/
def scoreAt (l : List Char) : Bool :=
  match l with
  | c :: r =>
    c.isDigit &&
      (match optWS r with
       | '대' :: r2 =>
         match optWS r2 with
         | d :: _ => d.isDigit
         | [] => false
       | _ => false)
  | [] => false

/-- Separator class `[-./]` of the date guard. -/
def isSep (c : Char) : Bool := c = '-' || c = '.' || c = '/'

/-- A separator then one leading digit. -/
def sepDigit (l : List Char) : Bool :=
  match l with
  | s :: d :: _ => isSep s && d.isDigit
  | _ => false

/-- Tail of the date guard after `\d{4}[-./]`: `\d{1,2}[-./]\d{1,2}`; both
widths of the first `\d{1,2}` are tried, the final one needs a single
digit. -/
def dateTail (l : List Char) : Bool :=
  match l with
  | e :: f :: rest => e.isDigit && ((f.isDigit && sepDigit rest) || (isSep f && (match rest with
      | d :: _ => d.isDigit
      | [] => false)))
  | _ => false

/-- One occurrence position of the date guard
`\d{4}[-./]\d{1,2}[-./]\d{1,2}`. -/
def dateAt (l : List Char) : Bool :=
  match l with
  | a :: b :: c :: d :: s1 :: rest =>
    a.isDigit && b.isDigit && c.isDigit && d.isDigit && isSep s1 && dateTail rest
  | _ => false

/-- `re.search`: the pattern occurs at some position of the list. -/
def searchAny (p : List Char → Bool) : List Char → Bool
  | [] => p []
  | c :: r => p (c :: r) || searchAny p r

/-- Tail of the bracket pattern after the opening bracket: `.+[]>]$` — a
nonempty middle without newlines, then a closing `]` or `>` at the very
end. -/
def bracketTail (l : List Char) : Bool :=
  match l.reverse with
  | last :: mid => (last = ']' || last = '>') && !mid.isEmpty && mid.all (· ≠ '\n')
  | [] => false

/-- Pattern `^[[<].+[]>]$` of the additional bracket check. -/
def bracketMatch (l : List Char) : Bool :=
  match l with
  | c :: rest => (c = '[' || c = '<') && bracketTail rest
  | [] => false

/-- The prose-punctuation test `any(char in cl for char in ['.','!','?','…'])`. -/
def hasProse (l : List Char) : Bool :=
  l.any (fun c => c = '.' || c = '!' || c = '?' || c = '…')

/-- The additional bracket check of lines 170-173: bracket-wrapped, shorter
than 20 characters, and free of prose punctuation. -/
def bracketCheck (cl : List Char) : Bool :=
  bracketMatch cl && cl.length < 20 && !hasProse cl

/-- `is_chapter_title` (src/app.py lines 147-175).  The loop over the seven
patterns returns true on the first pattern that matches and passes both
guards; since the two guards do not depend on the pattern, the loop succeeds
exactly when some pattern matches and both guards pass. -/
def is_chapter_title (line : String) : Bool :=
  let cl := stripList line.data
  if cl.length = 0 || 50 < cl.length then false
  else if titlePatterns.any (fun p =>
      p cl && !searchAny scoreAt cl && !searchAny dateAt cl) then true
  else bracketCheck cl

/-! ### The segmentation loop (src/app.py lines 266-283, `use_split` branch) -/

/-- The accumulator loop of the segmenter: `curr_t`/`curr_l` threaded over the
raw lines; a line is stripped, skipped when empty, flushes the accumulator
(only when its body is nonempty) when it classifies as a title, and is
appended HTML-escaped to the current body otherwise; a final nonempty
accumulator is flushed after the scan. -/
def segLoop (t : String) (b : List String) : List String → List (String × List String)
  | [] => if b.isEmpty then [] else [(t, b)]
  | line :: ls =>
    let cl := stripStr line
    if cl.isEmpty then segLoop t b ls
    else if is_chapter_title cl then
      (if b.isEmpty then [] else [(t, b)]) ++ segLoop cl [] ls
    else segLoop t (b ++ [html_escape cl]) ls

/-- `temp_chapters` as a function of the raw lines: the loop seeded with the
sentinel title `"시작"` and an empty body. -/
def segment (lines : List String) : List (String × List String) :=
  segLoop "시작" [] lines

/-- The stripped non-empty lines of the input, in order — the lines the
segmenter actually classifies. -/
def cleanLines (lines : List String) : List String :=
  (lines.map stripStr).filter (fun s => !s.isEmpty)

/-- The segmentation loop restricted to already-cleaned lines; `segLoop`
factors through `cleanLines` into this core (theorem `segLoop_eq_core`). -/
def segCore (t : String) (b : List String) : List String → List (String × List String)
  | [] => if b.isEmpty then [] else [(t, b)]
  | x :: xs =>
    if is_chapter_title x then
      (if b.isEmpty then [] else [(t, b)]) ++ segCore x [] xs
    else segCore t (b ++ [html_escape x]) xs

/-- The next cleaned line exists and is not a title — the condition under
which a pending title will be flushed with a nonempty body. -/
def headNonTitle : List String → Bool
  | [] => false
  | y :: _ => !is_chapter_title y

/-- The title lines of a cleaned line list that survive segmentation: those
immediately followed by a non-title line. -/
def keptTitles : List String → List String
  | [] => []
  | x :: xs => (if is_chapter_title x && headNonTitle xs then [x] else []) ++ keptTitles xs

/-- Every title line of the list is immediately followed by a non-title
line. -/
def followedOk : List String → Bool
  | [] => true
  | x :: xs => (!is_chapter_title x || headNonTitle xs) && followedOk xs

/-- A cleaned input on which segmentation loses nothing and adds nothing: it
is empty, or starts with a title line and every title line is immediately
followed by a non-title line. -/
def goodInput : List String → Bool
  | [] => true
  | x :: xs => is_chapter_title x && followedOk (x :: xs)

/-- The escaped non-title lines of a cleaned line list, in order — exactly the
body lines the segmenter stores. -/
def escBodies (cs : List String) : List String :=
  (cs.filter (fun x => !is_chapter_title x)).map html_escape

/-- All lines of a chapter list: each title followed by its body lines. -/
def allTitles (chs : List (String × List String)) : List String :=
  chs.map Prod.fst

/-- The concatenated bodies of a chapter list, in order. -/
def allBodies (chs : List (String × List String)) : List String :=
  flatMapL Prod.snd chs

/-! ### The keep-filter merge pass (src/app.py lines 295-305) -/

/-- Append the given lines onto the body of the last chapter of the list
(`processed_ch[-1][1].extend(...)`). -/
def appendToLast (chs : List (String × List String)) (xs : List String) :
    List (String × List String) :=
  match chs with
  | [] => []
  | [(t, l)] => [(t, l ++ xs)]
  | c :: rest => c :: appendToLast rest xs

/-- The merge loop over the enumerated detected chapters: a kept chapter is
appended to the output; an excluded one has its bracket-wrapped title and its
body folded onto the last output chapter, or starts a fresh `"본문"` chapter
when the output is still empty. -/
def mergeKeep (keep : List Nat) : Nat → List (String × List String) →
    List (String × List String) → List (String × List String)
  | _, acc, [] => acc
  | idx, acc, (t, l) :: rest =>
    if keep.contains idx then
      mergeKeep keep (idx + 1) (acc ++ [(t, l)]) rest
    else if acc.isEmpty then
      mergeKeep keep (idx + 1) [("본문", ("[" ++ t ++ "]") :: l)] rest
    else
      mergeKeep keep (idx + 1) (appendToLast acc (("[" ++ t ++ "]") :: l)) rest

/-- `processed_ch` as a function of the detected chapters and the selected
(kept) indices. -/
def processed_ch (chs : List (String × List String)) (keep : List Nat) :
    List (String × List String) :=
  mergeKeep keep 0 [] chs

/-- Total line count of a chapter list: each title counts as one line, plus
the body lines. -/
def totalLines (chs : List (String × List String)) : Nat :=
  (chs.map (fun p => 1 + p.2.length)).sum

/-! ### The packager `build_epub_buffer` (src/app.py lines 16-134) -/

/-- The chunk slices `ch_l[i:i+100]` for `i in range(0, len(ch_l), 100)`. -/
def chunkList (l : List String) : List (List String) :=
  if h : l = [] then [] else l.take 100 :: chunkList (l.drop 100)
  termination_by l.length
  decreasing_by
    simp only [List.length_drop]
    exact Nat.sub_lt (List.length_pos.mpr h) (by omega)

/-- The sub-chapters of one chapter: the first chunk keeps the title, later
chunks get the title suffixed with a continuation mark. -/
def subChunks (t : String) (l : List String) : List (String × List String) :=
  match chunkList l with
  | [] => []
  | c :: cs => (t, c) :: cs.map (fun c2 => (t ++ " (계속)", c2))

/-- `processed_chunks`: all chapters chunked, in order (lines 70-77). -/
def chunksOf (chs : List (String × List String)) : List (String × List String) :=
  flatMapL (fun p => subChunks p.1 p.2) chs

/-- Chapter document file name `f"ch_{i}.xhtml"`. -/
def fname (i : Nat) : String := "ch_" ++ natStr i ++ ".xhtml"

/-- Chapter manifest identifier `f"c{i}"`. -/
def cId (i : Nat) : String := "c" ++ natStr i

/-- The XHTML document of the chunk with global index `i` (lines 82-93): the
first document carries the book title as `h1`; a chunk whose title contains
the continuation mark gets no `h2` heading; body lines are wrapped verbatim
in `p` elements. -/
def xhtmlFor (bookTitle : String) (i : Nat) (t : String) (l : List String) : String :=
  "<?xml version=\"1.0\" encoding=\"utf-8\"?>"
  ++ "<!DOCTYPE html PUBLIC \"-//W3C//DTD XHTML 1.1//EN\" \"http://www.w3.org/TR/xhtml11/DTD/xhtml11.dtd\">"
  ++ "<html xmlns=\"http://www.w3.org/1999/xhtml\">"
  ++ "<head><link rel=\"stylesheet\" type=\"text/css\" href=\"style.css\"/></head>"
  ++ "<body>"
  ++ (if i = 0 then "<h1>" ++ html_escape bookTitle ++ "</h1>" else "")
  ++ (if containsSub t "(계속)" then "" else "<h2>" ++ html_escape t ++ "</h2>")
  ++ String.join (l.map (fun p => "<p>" ++ p ++ "</p>"))
  ++ "</body></html>"

/-- The manifest triples (id, href, media-type) of the chapter documents,
numbered from `k`. -/
def manifestChFrom : Nat → List (String × List String) → List (String × String × String)
  | _, [] => []
  | i, _ :: rest => (cId i, fname i, "application/xhtml+xml") :: manifestChFrom (i + 1) rest

/-- The spine idrefs, one per chunk, in reading order (line 97). -/
def spineFrom : Nat → List (String × List String) → List String
  | _, [] => []
  | i, _ :: rest => cId i :: spineFrom (i + 1) rest

/-- The navigation-map entries (chunk index, raw title) — one per chunk whose
title does not contain the continuation mark (lines 99-100). -/
def navFrom : Nat → List (String × List String) → List (Nat × String)
  | _, [] => []
  | i, (t, _) :: rest =>
    (if containsSub t "(계속)" then [] else [(i, t)]) ++ navFrom (i + 1) rest

/-- The package-manifest items in the order the OPF lists them: ncx,
stylesheet, chapter documents, optional font, optional cover
(lines 114-115, 126-128). -/
def manifestItems (chunks : List (String × List String)) (useF useC : Bool) :
    List (String × String × String) :=
  ("ncx", "toc.ncx", "application/x-dtbncx+xml")
  :: ("s", "style.css", "text/css")
  :: (manifestChFrom 0 chunks
      ++ (if useF then [("f", "fonts/RIDIBatang.otf", "application/vnd.ms-opentype")] else [])
      ++ (if useC then [("cover", "cover.jpg", "image/jpeg")] else []))

/-- Rendering of one manifest item element. -/
def renderManItem (it : String × String × String) : String :=
  "<item id=\"" ++ it.1 ++ "\" href=\"" ++ it.2.1 ++ "\" media-type=\"" ++ it.2.2 ++ "\"/>"

/-- `manifest_items`: the chapter item elements, each followed by a
newline (line 96). -/
def renderChItems (chunks : List (String × List String)) : String :=
  String.join ((manifestChFrom 0 chunks).map (fun it => renderManItem it ++ "\n"))

/-- `spine_items` (line 97). -/
def renderSpine (chunks : List (String × List String)) : String :=
  String.join ((spineFrom 0 chunks).map (fun id => "<itemref idref=\"" ++ id ++ "\"/>\n"))

/-- One `navPoint` element (line 100). -/
def renderNavPoint (p : Nat × String) : String :=
  "<navPoint id=\"p" ++ natStr p.1 ++ "\" playOrder=\"" ++ natStr (p.1 + 1)
  ++ "\"><navLabel><text>" ++ html_escape p.2 ++ "</text></navLabel><content src=\""
  ++ fname p.1 ++ "\"/></navPoint>"

/-- The ncx navigation document (lines 102-108). -/
def ncxFor (title book_id : String) (chunks : List (String × List String)) : String :=
  "<?xml version=\"1.0\" encoding=\"UTF-8\"?>"
  ++ "<ncx xmlns=\"http://www.daisy.org/z3986/2005/ncx/\" version=\"2005-1\">"
  ++ "<head><meta name=\"dtb:uid\" content=\"" ++ book_id ++ "\"/></head>"
  ++ "<docTitle><text>" ++ html_escape title ++ "</text></docTitle>"
  ++ "<navMap>" ++ String.join ((navFrom 0 chunks).map renderNavPoint) ++ "</navMap></ncx>"

/-- `cover_tag` (line 116). -/
def coverTag (useC : Bool) : String :=
  if useC then "<meta name=\"cover\" content=\"cover\"/>" else ""

/-- The package document `content.opf` (lines 118-130). -/
def opfFor (title book_id : String) (chunks : List (String × List String))
    (useF useC : Bool) : String :=
  "<?xml version=\"1.0\" encoding=\"utf-8\"?>"
  ++ "<package version=\"2.0\" xmlns=\"http://www.idpf.org/2007/opf\" unique-identifier=\"uid\">"
  ++ "<metadata xmlns:dc=\"http://purl.org/dc/elements/1.1/\">"
  ++ "<dc:title>" ++ html_escape title ++ "</dc:title>"
  ++ "<dc:language>ko</dc:language>"
  ++ "<dc:identifier id=\"uid\">" ++ book_id ++ "</dc:identifier>"
  ++ coverTag useC ++ "</metadata>"
  ++ "<manifest><item id=\"ncx\" href=\"toc.ncx\" media-type=\"application/x-dtbncx+xml\"/>"
  ++ "<item id=\"s\" href=\"style.css\" media-type=\"text/css\"/>"
  ++ renderChItems chunks
  ++ (if useF then renderManItem ("f", "fonts/RIDIBatang.otf", "application/vnd.ms-opentype") else "")
  ++ (if useC then renderManItem ("cover", "cover.jpg", "image/jpeg") else "")
  ++ "</manifest><spine toc=\"ncx\">" ++ renderSpine chunks ++ "</spine></package>"

/-- `META-INF/container.xml` (lines 58-62). -/
def containerXml : String :=
  "<?xml version=\"1.0\" encoding=\"UTF-8\"?>"
  ++ "<container version=\"1.0\" xmlns=\"urn:oasis:names:tc:opendocument:xmlns:container\">"
  ++ "<rootfiles><rootfile full-path=\"OEBPS/content.opf\" media-type=\"application/oebps-package+xml\"/></rootfiles>"
  ++ "</container>"

/-- `css_content` (lines 23-54); braces of the CSS source are written with
their code-point escapes, apostrophes with theirs. -/
def cssContent (useR : Bool) : String :=
  "\n    @font-face \x7b font-family: \x27RIDIBatang\x27; src: url(\x27fonts/RIDIBatang.otf\x27); \x7d\n"
  ++ "    body \x7b \n        font-family: "
  ++ (if useR then "\"RIDIBatang\", serif" else "\"Batang\", \"Noto Serif KR\", serif")
  ++ ";\n        line-height: 1.8; \n        margin: 5% 8%; \n        text-align: justify; \n"
  ++ "        word-break: keep-all;\n        hyphens: auto;\n    \x7d\n"
  ++ "    p \x7b \n        margin-top: 0; \n        margin-bottom: 1.5em; \n        text-indent: 1em; \n    \x7d\n"
  ++ "    h2 \x7b \n        text-align: center; \n        margin-top: 3em; \n        margin-bottom: 2em; \n"
  ++ "        font-size: 1.4em; \n        border-bottom: 1px solid #ccc; \n        padding-bottom: 0.5em; \n    \x7d\n"
  ++ "    h1 \x7b \n        text-align: center; \n        margin-top: 4em; \n    \x7d\n"
  ++ "    @media (prefers-color-scheme: dark) \x7b\n        body \x7b background: #1a1a1a; color: #e0e0e0; \x7d\n"
  ++ "        h2 \x7b border-bottom-color: #444; \x7d\n    \x7d\n    "

/-- Content of one archive entry: text written by `zf.writestr` with a
string, or raw bytes. -/
inductive EntryData where
  | text : String → EntryData
  | bytes : List Nat → EntryData
deriving DecidableEq

/-- One written archive entry; `stored` is true for `zipfile.ZIP_STORED`
(no compression). -/
structure ZEntry where
  name : String
  data : EntryData
  stored : Bool
deriving DecidableEq

/-- Whether the embedded-font branch is active:
`has_font and font_type == "리디바탕"` (lines 64, 114). -/
def useRIDI (has_font : Bool) (font_type : String) : Bool :=
  has_font && font_type == "리디바탕"

/-- The chapter-document entries, numbered from `k` (lines 80-95). -/
def chapterEntriesFrom (bookTitle : String) : Nat → List (String × List String) → List ZEntry
  | _, [] => []
  | i, (t, l) :: rest =>
    ⟨"OEBPS/" ++ fname i, EntryData.text (xhtmlFor bookTitle i t l), false⟩
      :: chapterEntriesFrom bookTitle (i + 1) rest

/-- `build_epub_buffer` as the ordered list of archive entries it writes:
mimetype (stored), container descriptor, optional font binary, stylesheet,
chapter documents, navigation document, optional cover bytes, package
document. -/
def build_entries (chapters : List (String × List String))
    (title font_type : String) (has_font : Bool) (fontBytes : List Nat)
    (cover : Option (List Nat)) (book_id : String) : List ZEntry :=
  let useF := useRIDI has_font font_type
  let chunks := chunksOf chapters
  ⟨"mimetype", EntryData.text "application/epub+zip", true⟩
  :: ⟨"META-INF/container.xml", EntryData.text containerXml, false⟩
  :: ((if useF then [(⟨"OEBPS/fonts/RIDIBatang.otf", EntryData.bytes fontBytes, false⟩ : ZEntry)] else [])
      ++ [⟨"OEBPS/style.css", EntryData.text (cssContent useF), false⟩]
      ++ chapterEntriesFrom title 0 chunks
      ++ [⟨"OEBPS/toc.ncx", EntryData.text (ncxFor title book_id chunks), false⟩]
      ++ (match cover with
          | some cb => [(⟨"OEBPS/cover.jpg", EntryData.bytes cb, false⟩ : ZEntry)]
          | none => [])
      ++ [⟨"OEBPS/content.opf", EntryData.text (opfFor title book_id chunks useF cover.isSome), false⟩])

/-! ### Specification-side comparison definitions -/

/-- Modelled from the spec ("a navigation document listing, in chapter order,
only the non-continuation chapters"): the expected navigation map — one entry
per chapter with a nonempty body, pointing at the first sub-chapter of the chapter
document and bearing the original title. -/
def navSpec : Nat → List (String × List String) → List (Nat × String)
  | _, [] => []
  | k, (t, l) :: rest =>
    (if l.isEmpty then [] else [(k, t)])
      ++ navSpec (k + (chunkList l).length) rest

/-- The expected title sequence of the sub-chapters of one chapter: the original
title first, every later sub-chapter suffixed with the continuation mark. -/
def titleShape (t : String) (n : Nat) : List String :=
  if n = 0 then [] else t :: List.replicate (n - 1) (t ++ " (계속)")

/-! ## Helper lemmas -/

theorem emptyPatMatches (r : List Char) : ([] : List Char).isPrefixOf r = true := by
  cases r <;> rfl

theorem entStep_amp (r : List Char) : entStep ('a' :: 'm' :: 'p' :: ';' :: r) = some ('&', r) := by
  simp [entStep, List.isPrefixOf, emptyPatMatches]

theorem entStep_lt (r : List Char) : entStep ('l' :: 't' :: ';' :: r) = some ('<', r) := by
  simp [entStep, List.isPrefixOf, emptyPatMatches]

theorem entStep_gt (r : List Char) : entStep ('g' :: 't' :: ';' :: r) = some ('>', r) := by
  simp [entStep, List.isPrefixOf, emptyPatMatches]

theorem entStep_quot (r : List Char) : entStep ('q' :: 'u' :: 'o' :: 't' :: ';' :: r) = some ('"', r) := by
  simp [entStep, List.isPrefixOf, emptyPatMatches]

theorem entStep_apos (r : List Char) : entStep ('#' :: 'x' :: '2' :: '7' :: ';' :: r) = some (quoteC, r) := by
  simp [entStep, List.isPrefixOf, emptyPatMatches]

theorem unescChars_ent (r r2 : List Char) (d : Char) (h : entStep r = some (d, r2)) :
    unescChars ('&' :: r) = d :: unescChars r2 := by
  have step : unescChars ('&' :: r) =
      (match hm : entStep r with
       | some (d, r2) => d :: unescChars r2
       | none => '&' :: unescChars r) := by
    rw [unescChars.eq_def]
    rfl
  rw [step]
  split
  · rename_i d' r2' heq
    rw [h] at heq
    cases heq
    rfl
  · rename_i heq
    rw [h] at heq
    cases heq

theorem unescChars_cons_ne (c : Char) (r : List Char) (h : ¬c = '&') :
    unescChars (c :: r) = c :: unescChars r := by
  simp [unescChars, h]

theorem unesc_escChar (c : Char) (r : List Char) :
    unescChars (escChar c ++ r) = c :: unescChars r := by
  by_cases h1 : c = '&'
  · subst h1
    exact unescChars_ent _ _ _ (entStep_amp r)
  by_cases h2 : c = '<'
  · subst h2
    exact unescChars_ent _ _ _ (entStep_lt r)
  by_cases h3 : c = '>'
  · subst h3
    exact unescChars_ent _ _ _ (entStep_gt r)
  by_cases h4 : c = '"'
  · subst h4
    exact unescChars_ent _ _ _ (entStep_quot r)
  by_cases h5 : c = quoteC
  · subst h5
    exact unescChars_ent _ _ _ (entStep_apos r)
  · have he : escChar c = [c] := by simp [escChar, h1, h2, h3, h4, h5]
    rw [he]
    exact unescChars_cons_ne c r h1

theorem unesc_escList (l : List Char) : unescChars (escList l) = l := by
  induction l with
  | nil => simp [escList, unescChars]
  | cons c r ih =>
    show unescChars (escChar c ++ escList r) = c :: r
    rw [unesc_escChar, ih]

theorem unesc_esc (s : String) : html_unescape (html_escape s) = s := by
  show (⟨unescChars (escList s.data)⟩ : String) = s
  rw [unesc_escList]

theorem unesc_esc_comp : html_unescape ∘ html_escape = id := by
  funext s
  exact unesc_esc s

theorem map_unesc_esc (l : List String) : (l.map html_escape).map html_unescape = l := by
  rw [List.map_map, unesc_esc_comp, List.map_id]

theorem escChar_no_lt (c : Char) : '<' ∉ escChar c := by
  by_cases h1 : c = '&'
  · subst h1
    decide
  by_cases h2 : c = '<'
  · subst h2
    decide
  by_cases h3 : c = '>'
  · subst h3
    decide
  by_cases h4 : c = '"'
  · subst h4
    decide
  by_cases h5 : c = quoteC
  · subst h5
    decide
  · simp [escChar, h1, h2, h3, h4, h5]
    exact fun hc => h2 hc.symm

theorem escList_no_lt (l : List Char) : '<' ∉ escList l := by
  induction l with
  | nil => simp [escList]
  | cons c r ih =>
    show '<' ∉ escChar c ++ escList r
    rw [List.mem_append]
    rintro (h | h)
    · exact escChar_no_lt c h
    · exact ih h

theorem html_escape_no_lt (s t : String) (h : html_escape s = t) : '<' ∉ t.data := by
  subst h
  exact escList_no_lt s.data

theorem digitChar_inj : ∀ a < 10, ∀ b < 10, digitChar a = digitChar b → a = b := by
  decide

theorem natDigits_small (n : Nat) (h : n < 10) : natDigits n = [digitChar n] := by
  rw [natDigits, if_pos h]

theorem natDigits_big (n : Nat) (h : ¬n < 10) :
    natDigits n = natDigits (n / 10) ++ [digitChar (n % 10)] := by
  rw [natDigits, if_neg h]

theorem natDigits_ne_nil (n : Nat) : natDigits n ≠ [] := by
  rw [natDigits]
  split <;> simp

theorem natDigits_len_small (n : Nat) (h : n < 10) : (natDigits n).length = 1 := by
  rw [natDigits_small n h]
  rfl

theorem natDigits_len_big (n : Nat) (h : ¬n < 10) : 2 ≤ (natDigits n).length := by
  rw [natDigits_big n h, List.length_append]
  have := List.length_pos.mpr (natDigits_ne_nil (n / 10))
  simp
  omega

theorem natDigits_inj : ∀ m n : Nat, natDigits m = natDigits n → m = n := by
  intro m
  induction m using Nat.strong_induction_on with
  | _ m ih =>
    intro n h
    by_cases hm : m < 10 <;> by_cases hn : n < 10
    · rw [natDigits_small m hm, natDigits_small n hn] at h
      exact digitChar_inj m hm n hn (List.singleton_injective h)
    · have hlen := congrArg List.length h
      rw [natDigits_len_small m hm] at hlen
      have := natDigits_len_big n hn
      omega
    · have hlen := congrArg List.length h
      rw [natDigits_len_small n hn] at hlen
      have := natDigits_len_big m hm
      omega
    · rw [natDigits_big m hm, natDigits_big n hn] at h
      have hrev := congrArg List.reverse h
      simp only [List.reverse_append, List.reverse_singleton, List.singleton_append,
        List.cons.injEq] at hrev
      obtain ⟨hd, htl⟩ := hrev
      have hdiv : m / 10 = n / 10 :=
        ih (m / 10) (Nat.div_lt_self (by omega) (by omega)) (n / 10)
          (List.reverse_injective htl)
      have hmod : m % 10 = n % 10 :=
        digitChar_inj (m % 10) (Nat.mod_lt _ (by omega)) (n % 10) (Nat.mod_lt _ (by omega)) hd
      omega

theorem natStr_inj (m n : Nat) (h : natStr m = natStr n) : m = n :=
  natDigits_inj m n (congrArg String.data h)

theorem cId_inj : Function.Injective cId := by
  intro m n h
  have hd := congrArg String.data h
  rw [show (cId m).data = 'c' :: natDigits m from rfl,
      show (cId n).data = 'c' :: natDigits n from rfl] at hd
  exact natDigits_inj m n (List.cons_injective hd)

/-! ### Segmentation lemmas -/

theorem flatMapL_append (f : α → List β) (u v : List α) :
    flatMapL f (u ++ v) = flatMapL f u ++ flatMapL f v := by
  induction u with
  | nil => rfl
  | cons c cs ihu =>
    show f c ++ flatMapL f (cs ++ v) = (f c ++ flatMapL f cs) ++ flatMapL f v
    rw [ihu, List.append_assoc]

theorem allBodies_append (u v : List (String × List String)) :
    allBodies (u ++ v) = allBodies u ++ allBodies v :=
  flatMapL_append _ u v

theorem allTitles_append (u v : List (String × List String)) :
    allTitles (u ++ v) = allTitles u ++ allTitles v := by
  simp [allTitles]

theorem cleanLines_cons (line : String) (ls : List String) :
    cleanLines (line :: ls) =
      if (stripStr line).isEmpty then cleanLines ls else stripStr line :: cleanLines ls := by
  simp only [cleanLines, List.map_cons, List.filter_cons]
  by_cases h : (stripStr line).isEmpty <;> simp [h]

theorem segLoop_skip (t line : String) (b : List String) (ls : List String)
    (h : (stripStr line).isEmpty) : segLoop t b (line :: ls) = segLoop t b ls := by
  show (if (stripStr line).isEmpty then segLoop t b ls else _) = segLoop t b ls
  rw [if_pos h]

theorem segLoop_title (t line : String) (b : List String) (ls : List String)
    (h : ¬(stripStr line).isEmpty = true) (ht : is_chapter_title (stripStr line)) :
    segLoop t b (line :: ls)
      = (if b.isEmpty then [] else [(t, b)]) ++ segLoop (stripStr line) [] ls := by
  show (if (stripStr line).isEmpty then _
        else if is_chapter_title (stripStr line) then
          (if b.isEmpty then [] else [(t, b)]) ++ segLoop (stripStr line) [] ls
        else _) = _
  rw [if_neg h, if_pos ht]

theorem segLoop_body (t line : String) (b : List String) (ls : List String)
    (h : ¬(stripStr line).isEmpty = true) (ht : ¬is_chapter_title (stripStr line) = true) :
    segLoop t b (line :: ls) = segLoop t (b ++ [html_escape (stripStr line)]) ls := by
  show (if (stripStr line).isEmpty then _
        else if is_chapter_title (stripStr line) then _
        else segLoop t (b ++ [html_escape (stripStr line)]) ls) = _
  rw [if_neg h, if_neg ht]

theorem segCore_title (t x : String) (b : List String) (xs : List String)
    (ht : is_chapter_title x) :
    segCore t b (x :: xs)
      = (if b.isEmpty then [] else [(t, b)]) ++ segCore x [] xs := by
  show (if is_chapter_title x then
          (if b.isEmpty then [] else [(t, b)]) ++ segCore x [] xs
        else _) = _
  rw [if_pos ht]

theorem segCore_body (t x : String) (b : List String) (xs : List String)
    (ht : ¬is_chapter_title x = true) :
    segCore t b (x :: xs) = segCore t (b ++ [html_escape x]) xs := by
  show (if is_chapter_title x then _
        else segCore t (b ++ [html_escape x]) xs) = _
  rw [if_neg ht]

theorem segLoop_eq_core (ls : List String) :
    ∀ t b, segLoop t b ls = segCore t b (cleanLines ls) := by
  induction ls with
  | nil => intro t b; rfl
  | cons line ls ih =>
    intro t b
    rw [cleanLines_cons]
    by_cases h : (stripStr line).isEmpty
    · rw [if_pos h, segLoop_skip t line b ls h, ih]
    · rw [if_neg h]
      by_cases ht : is_chapter_title (stripStr line)
      · rw [segLoop_title t line b ls h ht, segCore_title t _ b _ ht, ih]
      · rw [segLoop_body t line b ls h ht, segCore_body t _ b _ ht, ih]

theorem segCore_bodies (cs : List String) :
    ∀ t b, allBodies (segCore t b cs) = b ++ escBodies cs := by
  induction cs with
  | nil =>
    intro t b
    by_cases hb : b.isEmpty
    · have hb' : b = [] := by simpa using hb
      simp [segCore, hb, hb', allBodies, flatMapL, escBodies]
    · simp [segCore, hb, allBodies, flatMapL, escBodies]
  | cons x xs ih =>
    intro t b
    by_cases ht : is_chapter_title x
    · have hesc : escBodies (x :: xs) = escBodies xs := by
        simp [escBodies, List.filter_cons, ht]
      rw [hesc, segCore_title t x b xs ht, allBodies_append, ih x []]
      by_cases hb : b.isEmpty
      · have hb' : b = [] := by simpa using hb
        simp [hb, hb', allBodies, flatMapL]
      · simp [hb, allBodies, flatMapL]
    · have hesc : escBodies (x :: xs) = html_escape x :: escBodies xs := by
        simp [escBodies, List.filter_cons, ht]
      rw [hesc, segCore_body t x b xs ht, ih t (b ++ [html_escape x]), List.append_assoc]
      rfl

theorem segCore_titles (cs : List String) :
    ∀ t b, allTitles (segCore t b cs)
      = (if !b.isEmpty || headNonTitle cs then [t] else []) ++ keptTitles cs := by
  induction cs with
  | nil =>
    intro t b
    by_cases hb : b.isEmpty <;> simp [segCore, hb, allTitles, headNonTitle, keptTitles]
  | cons x xs ih =>
    intro t b
    by_cases ht : is_chapter_title x
    · rw [segCore_title t x b xs ht, allTitles_append, ih x []]
      have hkept : keptTitles (x :: xs) =
          (if headNonTitle xs then [x] else []) ++ keptTitles xs := by
        simp [keptTitles, ht]
      have hhead : headNonTitle (x :: xs) = false := by
        simp [headNonTitle, ht]
      rw [hkept, hhead]
      by_cases hb : b.isEmpty <;> simp [hb, allTitles]
    · rw [segCore_body t x b xs ht, ih t (b ++ [html_escape x])]
      have hkept : keptTitles (x :: xs) = keptTitles xs := by
        simp [keptTitles, ht]
      have hhead : headNonTitle (x :: xs) = true := by
        simp [headNonTitle, ht]
      rw [hkept, hhead]
      simp

theorem keptTitles_of_followedOk (cs : List String) (h : followedOk cs = true) :
    keptTitles cs = cs.filter (fun x => is_chapter_title x) := by
  induction cs with
  | nil => rfl
  | cons x xs ih =>
    have hx : (!is_chapter_title x || headNonTitle xs) = true ∧ followedOk xs = true := by
      simpa [followedOk, Bool.and_eq_true] using h
    obtain ⟨hx1, hx2⟩ := hx
    rw [keptTitles, List.filter_cons, ih hx2]
    by_cases ht : is_chapter_title x
    · have hh : headNonTitle xs = true := by
        rcases Bool.or_eq_true_iff.mp hx1 with h1 | h1
        · rw [ht] at h1
          cases h1
        · exact h1
      simp [ht, hh]
    · simp [ht]

theorem segCore_noTitles (cs : List String) (hno : ∀ x ∈ cs, is_chapter_title x = false) :
    cs ≠ [] → ∀ t b, segCore t b cs = [(t, b ++ cs.map html_escape)] := by
  induction cs with
  | nil => intro h; exact absurd rfl h
  | cons x xs ih =>
    intro _ t b
    have hx : is_chapter_title x = false := hno x (by simp)
    show (if is_chapter_title x then _ else segCore t (b ++ [html_escape x]) xs) = _
    rw [hx]
    simp only [Bool.false_eq_true, if_false]
    by_cases hxs : xs = []
    · subst hxs
      show (if (b ++ [html_escape x]).isEmpty then [] else [(t, b ++ [html_escape x])]) = _
      simp
    · rw [ih (fun y hy => hno y (by simp [hy])) hxs t (b ++ [html_escape x])]
      simp

/-! ## Claim C1: lossless segmentation round-trip -/

/-- C1, counterexample: on the single-line input `["제1화"]` the line is
classified as a title, is the last input line, and is dropped entirely — the
segmenter returns no chapter at all, so the claimed multiset equality fails
and the title appears in no chapter. -/
theorem C1_counterexample :
    segment ["제1화"] = []
    ∧ is_chapter_title "제1화" = true
    ∧ ¬((↑(cleanLines ["제1화"]) : Multiset String)
        = ↑(allTitles (segment ["제1화"]))
          + ↑((allBodies (segment ["제1화"])).map html_unescape)) :=
  ⟨by decide, by decide, by decide⟩

/-- C1 (amended): the multiset of non-empty stripped input lines equals the
multiset of chapter titles plus unescaped body lines, provided the cleaned
input is empty or starts with a title line and every title line is
immediately followed by a non-title line; a title line that is the last
cleaned line or is immediately followed by another title line is dropped, and
leading body lines are grouped under the sentinel title `"시작"` which is not
an input line. -/
theorem C1_roundtrip_amended (lines : List String)
    (h : goodInput (cleanLines lines) = true) :
    (↑(cleanLines lines) : Multiset String)
      = ↑(allTitles (segment lines))
        + ↑((allBodies (segment lines)).map html_unescape) := by
  have hseg : segment lines = segCore "시작" [] (cleanLines lines) :=
    segLoop_eq_core lines _ _
  rw [hseg]
  rcases hcl : cleanLines lines with _ | ⟨x, xs⟩
  · simp [segCore, allTitles, allBodies, flatMapL]
  · rw [hcl] at h
    have hx : is_chapter_title x = true ∧ followedOk (x :: xs) = true := by
      simpa [goodInput, Bool.and_eq_true] using h
    have htit := segCore_titles (x :: xs) "시작" []
    have hhead : headNonTitle (x :: xs) = false := by
      simp [headNonTitle, hx.1]
    rw [hhead] at htit
    simp only [List.isEmpty_nil, Bool.not_true, Bool.false_or, Bool.false_eq_true,
      if_false, List.nil_append] at htit
    rw [keptTitles_of_followedOk (x :: xs) hx.2] at htit
    have hbod := segCore_bodies (x :: xs) "시작" []
    simp only [List.nil_append] at hbod
    rw [htit, hbod]
    have hmap : (escBodies (x :: xs)).map html_unescape
        = (x :: xs).filter (fun y => !is_chapter_title y) := by
      unfold escBodies
      exact map_unesc_esc _
    rw [hmap, Multiset.coe_add]
    exact (Multiset.coe_eq_coe.mpr
      (List.filter_append_perm (fun y => is_chapter_title y) (x :: xs))).symm

/-- C1 witness: the amended round-trip evaluated on a concrete well-formed
input. -/
theorem C1_roundtrip_amended_witness :
    goodInput (cleanLines ["제1화 시작", "안녕하세요.", "제2화 다음날", "오늘은 맑다."]) = true
    ∧ (↑(cleanLines ["제1화 시작", "안녕하세요.", "제2화 다음날", "오늘은 맑다."]) : Multiset String)
      = ↑(allTitles (segment ["제1화 시작", "안녕하세요.", "제2화 다음날", "오늘은 맑다."]))
        + ↑((allBodies (segment ["제1화 시작", "안녕하세요.", "제2화 다음날", "오늘은 맑다."])).map html_unescape) :=
  ⟨by decide, C1_roundtrip_amended _ (by decide)⟩

/-! ## Claim C3: fallback totality -/

/-- C3, counterexample: on the input `["안녕하세요"]` no line classifies as a
title, and segmentation yields exactly one chapter containing the line — but
its title is the sentinel `"시작"` ("start"), not `"본문"` ("body"). -/
theorem C3_counterexample :
    segment ["안녕하세요"] = [("시작", ["안녕하세요"])]
    ∧ (cleanLines ["안녕하세요"]).all (fun x => !is_chapter_title x) = true
    ∧ "시작" ≠ "본문" :=
  ⟨by decide, by decide, by decide⟩

/-- C3 (amended): for an input with at least one non-empty line in which no
line classifies as a chapter title, segmentation yields exactly one chapter,
titled with the sentinel `"시작"` ("start", not "body"), whose body contains
every non-empty input line HTML-escaped in original order; zero title matches
is not an error. -/
theorem C3_fallback_amended (lines : List String)
    (h1 : (cleanLines lines).all (fun x => !is_chapter_title x) = true)
    (h2 : (cleanLines lines).isEmpty = false) :
    segment lines = [("시작", (cleanLines lines).map html_escape)] := by
  have hno : ∀ x ∈ cleanLines lines, is_chapter_title x = false := by
    intro x hx
    have := List.all_eq_true.mp h1 x hx
    simpa using this
  have hne : cleanLines lines ≠ [] := by
    intro hc
    rw [hc] at h2
    simp at h2
  have hseg : segment lines = segCore "시작" [] (cleanLines lines) :=
    segLoop_eq_core lines _ _
  rw [hseg, segCore_noTitles (cleanLines lines) hno hne "시작" []]
  simp

/-- C3 witness: the amended fallback evaluated on a concrete titleless
input. -/
theorem C3_fallback_amended_witness :
    (cleanLines ["안녕하세요", "오늘은 맑다"]).all (fun x => !is_chapter_title x) = true
    ∧ (cleanLines ["안녕하세요", "오늘은 맑다"]).isEmpty = false
    ∧ segment ["안녕하세요", "오늘은 맑다"]
        = [("시작", (cleanLines ["안녕하세요", "오늘은 맑다"]).map html_escape)] :=
  ⟨by decide, by decide, C3_fallback_amended _ (by decide) (by decide)⟩

/-! ## Claim C6: numbered-title heuristic -/

/-- C6, counterexample: `"1 제목"` is a leading integer followed by a space
separator and more content, its length is below 20, and it matches neither
the score nor the date guard — yet the code does not classify it as a title:
the numbered pattern accepts only `.` or `-` as separator, not a space. -/
theorem C6_counterexample :
    is_chapter_title "1 제목" = false
    ∧ ("1 제목" : String).length < 20
    ∧ searchAny scoreAt (stripList ("1 제목" : String).data) = false
    ∧ searchAny dateAt (stripList ("1 제목" : String).data) = false :=
  ⟨by decide, by decide, by decide, by decide⟩

theorem pat2_head (l : List Char) (h : pat2 l = true) :
    ∃ c r, l = c :: r ∧ c.isDigit = true := by
  cases l with
  | nil => simp [pat2, takeDigits1] at h
  | cons c r =>
    refine ⟨c, r, rfl, ?_⟩
    by_contra hc
    simp [pat2, takeDigits1, hc] at h

/-- C6 (amended): a line matching the numbered pattern — a leading integer,
then a period or hyphen (not a space) separator, then non-space content — is
classified as a chapter title exactly when its stripped length is at most 50
(there is no separate 20-character threshold for this pattern) and it matches
neither the score pattern nor the calendar-date pattern. -/
theorem C6_numbered_amended (line : String)
    (h : pat2 (stripList line.data) = true) :
    is_chapter_title line
      = (decide ((stripList line.data).length ≤ 50)
         && !searchAny scoreAt (stripList line.data)
         && !searchAny dateAt (stripList line.data)) := by
  obtain ⟨c, r, hcl, hdig⟩ := pat2_head _ h
  have hlen : (stripList line.data).length ≠ 0 := by
    rw [hcl]
    simp
  simp only [is_chapter_title]
  by_cases h50 : 50 < (stripList line.data).length
  · have hcond : ((stripList line.data).length = 0 || 50 < (stripList line.data).length) = true := by
      simp [h50]
    rw [if_pos hcond]
    have : decide ((stripList line.data).length ≤ 50) = false := by
      simp
      omega
    rw [this]
    simp
  · have hcond : ((stripList line.data).length = 0 || 50 < (stripList line.data).length) = false := by
      simp only [Bool.or_eq_false_iff, decide_eq_false_iff_not]
      exact ⟨hlen, h50⟩
    rw [if_neg (by rw [hcond]; simp)]
    have hle : decide ((stripList line.data).length ≤ 50) = true := by
      simp
      omega
    rw [hle]
    by_cases hs : searchAny scoreAt (stripList line.data) = true
    · have hany : titlePatterns.any (fun p =>
          p (stripList line.data) && !searchAny scoreAt (stripList line.data)
            && !searchAny dateAt (stripList line.data)) = false := by
        simp [titlePatterns, hs]
      rw [if_neg (by rw [hany]; simp)]
      have hb : bracketMatch (stripList line.data) = false := by
        have hc1 : (c = '[') = False := by
          simp only [eq_iff_iff, iff_false]
          intro he
          rw [he] at hdig
          exact absurd hdig (by decide)
        have hc2 : (c = '<') = False := by
          simp only [eq_iff_iff, iff_false]
          intro he
          rw [he] at hdig
          exact absurd hdig (by decide)
        rw [hcl]
        simp [bracketMatch, hc1, hc2]
      rw [show bracketCheck (stripList line.data) = false from by simp [bracketCheck, hb]]
      rw [hs]
      simp
    · by_cases hd : searchAny dateAt (stripList line.data) = true
      · have hany : titlePatterns.any (fun p =>
            p (stripList line.data) && !searchAny scoreAt (stripList line.data)
              && !searchAny dateAt (stripList line.data)) = false := by
          simp [titlePatterns, hd]
        rw [if_neg (by rw [hany]; simp)]
        have hc1 : (c = '[') = False := by
          simp only [eq_iff_iff, iff_false]
          intro he
          rw [he] at hdig
          exact absurd hdig (by decide)
        have hc2 : (c = '<') = False := by
          simp only [eq_iff_iff, iff_false]
          intro he
          rw [he] at hdig
          exact absurd hdig (by decide)
        have hb : bracketMatch (stripList line.data) = false := by
          rw [hcl]
          simp [bracketMatch, hc1, hc2]
        rw [show bracketCheck (stripList line.data) = false from by simp [bracketCheck, hb]]
        rw [hd]
        simp
      · have hs' : searchAny scoreAt (stripList line.data) = false := by
          simpa using hs
        have hd' : searchAny dateAt (stripList line.data) = false := by
          simpa using hd
        have hany : titlePatterns.any (fun p =>
            p (stripList line.data) && !searchAny scoreAt (stripList line.data)
              && !searchAny dateAt (stripList line.data)) = true := by
          simp only [titlePatterns, List.any_cons]
          rw [h, hs', hd']
          simp
        rw [if_pos (by rw [hany])]
        rw [hs', hd']
        simp

/-- C6 witness: the amended numbered-pattern characterization evaluated on
`"3. 출발"`. -/
theorem C6_numbered_amended_witness :
    pat2 (stripList ("3. 출발" : String).data) = true
    ∧ is_chapter_title "3. 출발"
        = (decide ((stripList ("3. 출발" : String).data).length ≤ 50)
           && !searchAny scoreAt (stripList ("3. 출발" : String).data)
           && !searchAny dateAt (stripList ("3. 출발" : String).data)) :=
  ⟨by decide, C6_numbered_amended _ (by decide)⟩

/-! ## Claim C7: bracketed-line heuristic -/

/-- C7, counterexample: `"[부록]"` contains no prose punctuation (the `!` is
in the second line), so the code DOES classify it as a chapter title, and the
example input produces one chapter titled `"[부록]"` whose body is the second
line only — not a single fallback chapter containing both lines. -/
theorem C7_counterexample :
    is_chapter_title "[부록]" = true
    ∧ segment ["[부록]", "이것은 대사다!"] = [("[부록]", ["이것은 대사다!"])] :=
  ⟨by decide, by decide⟩

/-- C7 (amended): a line wrapped entirely in a bracket pair is classified as
a title whenever its stripped length is below 20 (not 15) and it contains
none of `.`, `!`, `?`, `…` (a stray closing bracket is not excluded); in
particular `"[부록]"` IS a title, so `["[부록]", "이것은 대사다!"]` segments
into one chapter titled `"[부록]"` with the second line as body. -/
theorem C7_bracket_amended (line : String)
    (h1 : bracketMatch (stripList line.data) = true)
    (h2 : (stripList line.data).length < 20)
    (h3 : hasProse (stripList line.data) = false) :
    is_chapter_title line = true := by
  have hne : stripList line.data ≠ [] := by
    intro he
    rw [he] at h1
    simp [bracketMatch] at h1
  have hlen : (stripList line.data).length ≠ 0 := by
    simpa [List.length_eq_zero] using hne
  simp only [is_chapter_title]
  have hcond : ((stripList line.data).length = 0 || 50 < (stripList line.data).length) = false := by
    simp only [Bool.or_eq_false_iff, decide_eq_false_iff_not]
    exact ⟨hlen, by omega⟩
  rw [if_neg (by rw [hcond]; simp)]
  by_cases hany : titlePatterns.any (fun p =>
      p (stripList line.data) && !searchAny scoreAt (stripList line.data)
        && !searchAny dateAt (stripList line.data)) = true
  · rw [if_pos hany]
  · rw [if_neg hany]
    simp [bracketCheck, h1, h2, h3]

/-- C7 witness: the amended bracket rule applied to `"[부록]"`. -/
theorem C7_bracket_amended_witness :
    bracketMatch (stripList ("[부록]" : String).data) = true
    ∧ (stripList ("[부록]" : String).data).length < 20
    ∧ hasProse (stripList ("[부록]" : String).data) = false
    ∧ is_chapter_title "[부록]" = true :=
  ⟨by decide, by decide, by decide, C7_bracket_amended _ (by decide) (by decide) (by decide)⟩

/-! ## Claim C4: merge conservation -/

theorem totalLines_append (u v : List (String × List String)) :
    totalLines (u ++ v) = totalLines u + totalLines v := by
  simp [totalLines]

theorem appendToLast_total (xs : List String) :
    ∀ acc, acc ≠ [] → totalLines (appendToLast acc xs) = totalLines acc + xs.length := by
  intro acc
  induction acc with
  | nil => intro h; exact absurd rfl h
  | cons c acc' ih =>
    intro _
    cases acc' with
    | nil =>
      obtain ⟨t, l⟩ := c
      simp [appendToLast, totalLines]
      omega
    | cons c2 acc'' =>
      have : appendToLast (c :: c2 :: acc'') xs = c :: appendToLast (c2 :: acc'') xs := by
        simp [appendToLast]
      rw [this]
      have h1 : totalLines (c :: appendToLast (c2 :: acc'') xs)
          = (1 + c.2.length) + totalLines (appendToLast (c2 :: acc'') xs) := by
        simp [totalLines]
      have h2 : totalLines (c :: c2 :: acc'') = (1 + c.2.length) + totalLines (c2 :: acc'') := by
        simp [totalLines]
      rw [h1, h2, ih (by simp)]
      omega

theorem appendToLast_ne_nil (acc : List (String × List String)) (xs : List String)
    (h : acc ≠ []) : appendToLast acc xs ≠ [] := by
  cases acc with
  | nil => exact absurd rfl h
  | cons c acc' =>
    cases acc' with
    | nil =>
      obtain ⟨t, l⟩ := c
      simp [appendToLast]
    | cons c2 acc'' =>
      simp [appendToLast]

theorem totalLines_cons (t : String) (l : List String) (rest : List (String × List String)) :
    totalLines ((t, l) :: rest) = (1 + l.length) + totalLines rest := by
  simp [totalLines]

theorem mergeKeep_cons_keep (keep : List Nat) (idx : Nat) (acc rest : List (String × List String))
    (t : String) (l : List String) (hk : keep.contains idx = true) :
    mergeKeep keep idx acc ((t, l) :: rest)
      = mergeKeep keep (idx + 1) (acc ++ [(t, l)]) rest := by
  show (if keep.contains idx then mergeKeep keep (idx + 1) (acc ++ [(t, l)]) rest else _) = _
  rw [if_pos hk]

theorem mergeKeep_cons_bucket (keep : List Nat) (idx : Nat) (acc rest : List (String × List String))
    (t : String) (l : List String) (hk : ¬keep.contains idx = true) (he : acc.isEmpty = true) :
    mergeKeep keep idx acc ((t, l) :: rest)
      = mergeKeep keep (idx + 1) [("본문", ("[" ++ t ++ "]") :: l)] rest := by
  show (if keep.contains idx then _
        else if acc.isEmpty then mergeKeep keep (idx + 1) [("본문", ("[" ++ t ++ "]") :: l)] rest
        else _) = _
  rw [if_neg hk, if_pos he]

theorem mergeKeep_cons_fold (keep : List Nat) (idx : Nat) (acc rest : List (String × List String))
    (t : String) (l : List String) (hk : ¬keep.contains idx = true) (he : acc.isEmpty = false) :
    mergeKeep keep idx acc ((t, l) :: rest)
      = mergeKeep keep (idx + 1) (appendToLast acc (("[" ++ t ++ "]") :: l)) rest := by
  show (if keep.contains idx then _
        else if acc.isEmpty then _
        else mergeKeep keep (idx + 1) (appendToLast acc (("[" ++ t ++ "]") :: l)) rest) = _
  rw [if_neg hk, if_neg (by rw [he]; simp)]

theorem mergeKeep_total (keep : List Nat) :
    ∀ rest idx acc, acc ≠ [] →
      totalLines (mergeKeep keep idx acc rest) = totalLines acc + totalLines rest := by
  intro rest
  induction rest with
  | nil =>
    intro idx acc _
    simp [mergeKeep, totalLines]
  | cons p rest ih =>
    intro idx acc hacc
    obtain ⟨t, l⟩ := p
    by_cases hk : keep.contains idx
    · rw [mergeKeep_cons_keep keep idx acc rest t l hk,
        ih (idx + 1) (acc ++ [(t, l)]) (by simp), totalLines_append,
        show totalLines [(t, l)] = 1 + l.length from by simp [totalLines] <;> omega,
        totalLines_cons t l rest]
      omega
    · have hne : acc.isEmpty = false := by
        simpa using hacc
      rw [mergeKeep_cons_fold keep idx acc rest t l hk hne,
        ih (idx + 1) _ (appendToLast_ne_nil acc _ hacc),
        appendToLast_total _ acc hacc, totalLines_cons]
      simp
      omega

/-- C4, counterexample: excluding the only chapter of `[("제1화", ["a"])]`
creates a fresh `"본문"` bucket chapter, whose own title line makes the merged
total 3 while the original total is 2 — the claimed equality fails whenever
the first chapter is excluded. -/
theorem C4_counterexample :
    processed_ch [("제1화", ["a"])] [] = [("본문", ["[제1화]", "a"])]
    ∧ totalLines [("제1화", ["a"])] = 2
    ∧ totalLines (processed_ch [("제1화", ["a"])] []) = 3 :=
  ⟨by decide, by decide, by decide⟩

/-- C4 (amended): the merge pass appends the bracket-wrapped excluded-chapter
title and body onto the last chapter already produced (a retained chapter or
the `"본문"` bucket), or starts the `"본문"` bucket when nothing has been
produced yet; the total line count (titles counted as lines plus body lines)
after merging equals the total before merging exactly when the chapter list
is empty or its first chapter is kept, and is exactly one more (the new
`"본문"` title line) otherwise.  No input line is lost in either case. -/
theorem C4_merge_conservation_amended (chs : List (String × List String)) (keep : List Nat) :
    totalLines (processed_ch chs keep)
      = totalLines chs + (if chs.isEmpty || keep.contains 0 then 0 else 1) := by
  cases chs with
  | nil => simp [processed_ch, mergeKeep, totalLines]
  | cons p rest =>
    obtain ⟨t, l⟩ := p
    by_cases hk : keep.contains 0
    · have hmem : 0 ∈ keep := by
        simpa using hk
      have hcond : (((t, l) :: rest : List (String × List String)).isEmpty || keep.contains 0) = true := by
        simp [hmem]
      rw [hcond]
      have hstep : processed_ch ((t, l) :: rest) keep = mergeKeep keep 1 [(t, l)] rest := by
        show mergeKeep keep 0 [] ((t, l) :: rest) = _
        rw [mergeKeep_cons_keep keep 0 [] rest t l hk]
        rfl
      rw [hstep, mergeKeep_total keep rest 1 [(t, l)] (by simp),
        show totalLines [(t, l)] = 1 + l.length from by simp [totalLines] <;> omega,
        totalLines_cons t l rest]
      simp
    · have hnmem : 0 ∉ keep := by
        simpa using hk
      have hcond : (((t, l) :: rest : List (String × List String)).isEmpty || keep.contains 0) = false := by
        simp [hnmem]
      rw [hcond]
      have hstep : processed_ch ((t, l) :: rest) keep
          = mergeKeep keep 1 [("본문", ("[" ++ t ++ "]") :: l)] rest := by
        show mergeKeep keep 0 [] ((t, l) :: rest) = _
        exact mergeKeep_cons_bucket keep 0 [] rest t l hk rfl
      rw [hstep, mergeKeep_total keep rest 1 _ (by simp),
        show totalLines [("본문", ("[" ++ t ++ "]") :: l)] = 1 + (1 + l.length) from by
          simp [totalLines] <;> omega,
        totalLines_cons t l rest]
      simp only [Bool.false_eq_true, if_false]
      omega

/-! ## Claim C8: escaping invariant (code bug in the merge pass) -/

/-- C8: the segmenter HTML-escapes body lines exactly once and keeps titles
raw, but the merge pass folds the title of an excluded chapter into a body as
`"[" + title + "]"` WITHOUT escaping it.  At the reachable failing input
`[("<1>", ["a"])]` with no kept index, the merged body stores the line
`"[<1>]"`, which is not the `html_escape` image of any string (escape output
never contains a raw `<`) — so a body line is stored unescaped, contradicting
the claimed invariant. -/
theorem C8_merge_unescaped :
    processed_ch [("<1>", ["a"])] [] = [("본문", ["[<1>]", "a"])]
    ∧ is_chapter_title "<1>" = true
    ∧ ∀ s : String, html_escape s ≠ "[<1>]" := by
  refine ⟨by decide, by decide, ?_⟩
  intro s h
  exact html_escape_no_lt s _ h (by decide)

/-! ## Chunking, navigation and spine lemmas -/

theorem chunkList_nil : chunkList [] = [] := by
  rw [chunkList]
  simp

theorem chunkList_cons (l : List String) (h : l ≠ []) :
    chunkList l = l.take 100 :: chunkList (l.drop 100) := by
  rw [chunkList]
  simp [h]

theorem chunkList_eq_nil_iff (l : List String) : chunkList l = [] ↔ l = [] := by
  constructor
  · intro h
    by_contra hne
    rw [chunkList_cons l hne] at h
    cases h
  · intro h
    rw [h, chunkList_nil]

theorem chunkList_join_aux (n : Nat) : ∀ l : List String, l.length ≤ n →
    flatMapL id (chunkList l) = l := by
  induction n with
  | zero =>
    intro l hl
    have : l = [] := List.length_eq_zero.mp (by omega)
    rw [this, chunkList_nil]
    rfl
  | succ n ih =>
    intro l hl
    by_cases h : l = []
    · rw [h, chunkList_nil]
      rfl
    · rw [chunkList_cons l h]
      show l.take 100 ++ flatMapL id (chunkList (l.drop 100)) = l
      have hlen : (l.drop 100).length ≤ n := by
        have h1 : 0 < l.length := List.length_pos.mpr h
        simp [List.length_drop]
        omega
      rw [ih (l.drop 100) hlen, List.take_append_drop]

theorem chunkList_join (l : List String) : flatMapL id (chunkList l) = l :=
  chunkList_join_aux l.length l (le_refl _)

theorem flatMapL_map (f : β → List γ) (g : α → β) (l : List α) :
    flatMapL f (l.map g) = flatMapL (fun a => f (g a)) l := by
  induction l with
  | nil => rfl
  | cons x xs ih =>
    show f (g x) ++ flatMapL f (xs.map g) = f (g x) ++ flatMapL (fun a => f (g a)) xs
    rw [ih]

theorem subChunks_nil (t : String) : subChunks t [] = [] := by
  simp [subChunks, chunkList_nil]

theorem subChunks_bodies (t : String) (l : List String) :
    flatMapL Prod.snd (subChunks t l) = l := by
  rcases hc : chunkList l with _ | ⟨c, cs⟩
  · have : l = [] := (chunkList_eq_nil_iff l).mp hc
    rw [this, subChunks_nil]
    rfl
  · have : subChunks t l = (t, c) :: cs.map (fun c2 => (t ++ " (계속)", c2)) := by
      simp [subChunks, hc]
    rw [this]
    show c ++ flatMapL Prod.snd (cs.map (fun c2 => (t ++ " (계속)", c2))) = l
    rw [flatMapL_map]
    have : flatMapL (fun a : List String => a) cs = flatMapL id cs := rfl
    rw [show (fun (a : List String) => (((t ++ " (계속)", a) : String × List String)).2) = id from rfl]
    have hj := chunkList_join l
    rw [hc] at hj
    exact hj

theorem chunksOf_append (u v : List (String × List String)) :
    chunksOf (u ++ v) = chunksOf u ++ chunksOf v :=
  flatMapL_append _ u v

theorem chunksOf_bodies (chs : List (String × List String)) :
    flatMapL Prod.snd (chunksOf chs) = flatMapL Prod.snd chs := by
  induction chs with
  | nil => rfl
  | cons p rest ih =>
    show flatMapL Prod.snd (subChunks p.1 p.2 ++ chunksOf rest) = p.2 ++ flatMapL Prod.snd rest
    rw [flatMapL_append, subChunks_bodies, ih]

theorem subList_suffix (p : List Char) (a b : List Char) (h : subList p b = true) :
    subList p (a ++ b) = true := by
  induction a with
  | nil => exact h
  | cons c a' ih =>
    show (p.isPrefixOf (c :: (a' ++ b)) || subList p (a' ++ b)) = true
    rw [ih]
    simp

theorem containsSub_cont_suffix (t : String) :
    containsSub (t ++ " (계속)") "(계속)" = true := by
  show subList ("(계속)" : String).data (t ++ " (계속)").data = true
  rw [String.data_append]
  exact subList_suffix _ t.data _ (by decide)

theorem navFrom_append (u v : List (String × List String)) :
    ∀ k, navFrom k (u ++ v) = navFrom k u ++ navFrom (k + u.length) v := by
  induction u with
  | nil => intro k; simp [navFrom]
  | cons p u' ih =>
    intro k
    obtain ⟨t, l⟩ := p
    show (if containsSub t "(계속)" then [] else [(k, t)]) ++ navFrom (k + 1) (u' ++ v) = _
    rw [ih (k + 1)]
    have : k + 1 + u'.length = k + (u'.length + 1) := by omega
    rw [this]
    show _ = ((if containsSub t "(계속)" then [] else [(k, t)]) ++ navFrom (k + 1) u')
      ++ navFrom (k + (u'.length + 1)) v
    rw [List.append_assoc]

theorem navFrom_cont_tail (t : String) (cs : List (List String)) :
    ∀ k, navFrom k (cs.map (fun c2 => (t ++ " (계속)", c2))) = [] := by
  induction cs with
  | nil => intro k; rfl
  | cons c cs' ih =>
    intro k
    show (if containsSub (t ++ " (계속)") "(계속)" then [] else [(k, t ++ " (계속)")])
        ++ navFrom (k + 1) (cs'.map (fun c2 => (t ++ " (계속)", c2))) = []
    rw [containsSub_cont_suffix t, ih (k + 1)]
    simp

theorem navFrom_sub (t : String) (l : List String) (k : Nat)
    (h : containsSub t "(계속)" = false) :
    navFrom k (subChunks t l) = if l.isEmpty then [] else [(k, t)] := by
  rcases hc : chunkList l with _ | ⟨c, cs⟩
  · have hl : l = [] := (chunkList_eq_nil_iff l).mp hc
    rw [hl, subChunks_nil]
    rfl
  · have hl : l ≠ [] := by
      intro he
      rw [he, chunkList_nil] at hc
      cases hc
    have hsub : subChunks t l = (t, c) :: cs.map (fun c2 => (t ++ " (계속)", c2)) := by
      simp [subChunks, hc]
    rw [hsub]
    show (if containsSub t "(계속)" then [] else [(k, t)])
        ++ navFrom (k + 1) (cs.map (fun c2 => (t ++ " (계속)", c2)))
      = if l.isEmpty then [] else [(k, t)]
    rw [h, navFrom_cont_tail t cs (k + 1)]
    have : l.isEmpty = false := by
      simpa using hl
    rw [this]
    simp

theorem subChunks_length (t : String) (l : List String) :
    (subChunks t l).length = (chunkList l).length := by
  rcases hc : chunkList l with _ | ⟨c, cs⟩
  · have hl : l = [] := (chunkList_eq_nil_iff l).mp hc
    simp [hl, subChunks_nil, chunkList_nil]
  · have hsub : subChunks t l = (t, c) :: cs.map (fun c2 => (t ++ " (계속)", c2)) := by
      simp [subChunks, hc]
    rw [hsub]
    simp

theorem navFrom_eq_navSpec (chs : List (String × List String))
    (h : ∀ p ∈ chs, containsSub p.1 "(계속)" = false) :
    ∀ k, navFrom k (chunksOf chs) = navSpec k chs := by
  induction chs with
  | nil => intro k; rfl
  | cons p rest ih =>
    intro k
    obtain ⟨t, l⟩ := p
    show navFrom k (subChunks t l ++ chunksOf rest) = _
    rw [navFrom_append, navFrom_sub t l k (h (t, l) (by simp)), subChunks_length]
    show _ = (if l.isEmpty then [] else [(k, t)]) ++ navSpec (k + (chunkList l).length) rest
    rw [ih (fun q hq => h q (by simp [hq])) (k + (chunkList l).length)]

theorem subChunks_titles (t : String) (l : List String) :
    (subChunks t l).map Prod.fst = titleShape t (chunkList l).length := by
  rcases hc : chunkList l with _ | ⟨c, cs⟩
  · have hl : l = [] := (chunkList_eq_nil_iff l).mp hc
    simp [hl, subChunks_nil, chunkList_nil, titleShape]
  · have hsub : subChunks t l = (t, c) :: cs.map (fun c2 => (t ++ " (계속)", c2)) := by
      simp [subChunks, hc]
    rw [hsub]
    show t :: (cs.map (fun c2 => (t ++ " (계속)", c2))).map Prod.fst
      = titleShape t (cs.length + 1)
    rw [List.map_map]
    have : (Prod.fst ∘ fun c2 : List String => (t ++ " (계속)", c2))
        = Function.const (List String) (t ++ " (계속)") := rfl
    rw [this, List.map_const]
    simp [titleShape]

theorem spineFrom_eq (cks : List (String × List String)) :
    ∀ k, spineFrom k cks = (List.range cks.length).map (fun j => cId (k + j)) := by
  induction cks with
  | nil => intro k; rfl
  | cons c cks' ih =>
    intro k
    show cId k :: spineFrom (k + 1) cks' = _
    rw [ih (k + 1)]
    rw [show (c :: cks').length = cks'.length + 1 from rfl, List.range_succ_eq_map,
      List.map_cons, List.map_map]
    refine congrArg₂ _ (by rw [Nat.add_zero]) ?_
    apply List.map_congr_left
    intro j _
    show cId (k + 1 + j) = cId (k + Nat.succ j)
    exact congrArg cId (by omega)

theorem spineFrom_zero (cks : List (String × List String)) :
    spineFrom 0 cks = (List.range cks.length).map cId := by
  rw [spineFrom_eq cks 0]
  apply List.map_congr_left
  intro j _
  rw [Nat.zero_add]

/-! ## Claim C5: pagination -/

/-- C5, counterexample: the chapter `("제1화 (계속)", 101 lines)` — whose
title the segmenter really can produce, since `"제1화 (계속)"` classifies as a
title — is split into two sub-chapters, yet the navigation map is empty: the
first, non-continuation sub-chapter gets no navigation entry, because the
navigation filter is a substring test on the title, not a continuation
flag. -/
theorem C5_counterexample :
    is_chapter_title "제1화 (계속)" = true
    ∧ (chunksOf [("제1화 (계속)", List.replicate 101 "가")]).length = 2
    ∧ (chunksOf [("제1화 (계속)", List.replicate 101 "가")]).map Prod.fst
        = ["제1화 (계속)", "제1화 (계속) (계속)"]
    ∧ navFrom 0 (chunksOf [("제1화 (계속)", List.replicate 101 "가")]) = [] := by
  have h1 : chunkList (List.replicate 101 "가") = [List.replicate 100 "가", ["가"]] := by
    rw [chunkList_cons _ (by simp)]
    have ht : (List.replicate 101 "가").take 100 = List.replicate 100 "가" := by
      rw [List.take_replicate]
      norm_num
    have hd : (List.replicate 101 "가").drop 100 = ["가"] := by
      rw [List.drop_replicate]
      norm_num
    rw [ht, hd, chunkList_cons _ (by simp),
      show (["가"] : List String).take 100 = ["가"] from rfl,
      show (["가"] : List String).drop 100 = [] from rfl, chunkList_nil]
  have h2 : chunksOf [("제1화 (계속)", List.replicate 101 "가")]
      = [("제1화 (계속)", List.replicate 100 "가"), ("제1화 (계속) (계속)", ["가"])] := by
    show subChunks "제1화 (계속)" (List.replicate 101 "가") ++ [] = _
    rw [List.append_nil]
    simp only [subChunks, h1, List.map_cons, List.map_nil]
    refine congrArg₂ _ rfl (congrArg₂ _ (congrArg₂ _ (by decide) rfl) rfl)
  refine ⟨by decide, ?_, ?_, ?_⟩
  · rw [h2]
    rfl
  · rw [h2]
    decide
  · rw [h2]
    decide

/-- C5 (amended): concatenating the sub-chapter bodies in spine order
reproduces the original bodies in order; only the first sub-chapter of a
chapter carries the original title, later ones get the title suffixed with
`" (계속)"`; and a sub-chapter receives a navigation entry exactly when its
title does not contain the substring `"(계속)"` — which, for chapter lists in
which no original title contains `"(계속)"`, are exactly the non-continuation
sub-chapters: one navigation entry per chapter with a nonempty body, at its
first sub-chapter document, while every sub-chapter stays in the spine. -/
theorem C5_pagination_amended (chs : List (String × List String))
    (h : chs.all (fun p => !containsSub p.1 "(계속)") = true) :
    flatMapL Prod.snd (chunksOf chs) = flatMapL Prod.snd chs
    ∧ navFrom 0 (chunksOf chs) = navSpec 0 chs
    ∧ (∀ p ∈ chs, (subChunks p.1 p.2).map Prod.fst = titleShape p.1 (chunkList p.2).length)
    ∧ spineFrom 0 (chunksOf chs)
        = (List.range (chunksOf chs).length).map cId := by
  have h' : ∀ p ∈ chs, containsSub p.1 "(계속)" = false := by
    intro p hp
    have := List.all_eq_true.mp h p hp
    simpa using this
  refine ⟨chunksOf_bodies chs, navFrom_eq_navSpec chs h' 0, ?_, ?_⟩
  · intro p _
    exact subChunks_titles p.1 p.2
  · exact spineFrom_zero (chunksOf chs)

/-- C5 witness: the amended pagination facts on a concrete two-chapter
list. -/
theorem C5_pagination_amended_witness :
    ([("제1화", ["a"]), ("제2화", ["b", "c"])] : List (String × List String)).all
        (fun p => !containsSub p.1 "(계속)") = true
    ∧ (flatMapL Prod.snd (chunksOf [("제1화", ["a"]), ("제2화", ["b", "c"])])
          = flatMapL Prod.snd [("제1화", ["a"]), ("제2화", ["b", "c"])]
       ∧ navFrom 0 (chunksOf [("제1화", ["a"]), ("제2화", ["b", "c"])])
          = navSpec 0 [("제1화", ["a"]), ("제2화", ["b", "c"])]
       ∧ (∀ p ∈ ([("제1화", ["a"]), ("제2화", ["b", "c"])] : List (String × List String)),
            (subChunks p.1 p.2).map Prod.fst = titleShape p.1 (chunkList p.2).length)
       ∧ spineFrom 0 (chunksOf [("제1화", ["a"]), ("제2화", ["b", "c"])])
          = (List.range (chunksOf [("제1화", ["a"]), ("제2화", ["b", "c"])]).length).map cId) :=
  ⟨by decide, C5_pagination_amended _ (by decide)⟩

/-! ## Claim C9: empty-body chapters are omitted -/

theorem chunksOf_drop_empty (xs ys : List (String × List String)) (t : String) :
    chunksOf (xs ++ (t, ([] : List String)) :: ys) = chunksOf (xs ++ ys) := by
  rw [chunksOf_append, chunksOf_append]
  show chunksOf xs ++ (subChunks t [] ++ chunksOf ys) = chunksOf xs ++ chunksOf ys
  rw [subChunks_nil]
  rfl

/-- C9: a chapter whose body is empty yields no chunk at all, so the archive
built from a chapter list containing it is identical — entry for entry,
manifest item for manifest item, spine and navigation map included — to the
archive built from the list without it; in particular the remaining chapter
documents are numbered `ch_0`, `ch_1`, ... without a gap. -/
theorem C9_empty_body_omitted (xs ys : List (String × List String)) (t : String)
    (title font_type book_id : String) (has_font : Bool) (fontBytes : List Nat)
    (cover : Option (List Nat)) :
    build_entries (xs ++ (t, ([] : List String)) :: ys) title font_type has_font fontBytes cover book_id
      = build_entries (xs ++ ys) title font_type has_font fontBytes cover book_id
    ∧ manifestItems (chunksOf (xs ++ (t, ([] : List String)) :: ys)) (useRIDI has_font font_type) cover.isSome
      = manifestItems (chunksOf (xs ++ ys)) (useRIDI has_font font_type) cover.isSome
    ∧ navFrom 0 (chunksOf (xs ++ (t, ([] : List String)) :: ys)) = navFrom 0 (chunksOf (xs ++ ys))
    ∧ spineFrom 0 (chunksOf (xs ++ (t, ([] : List String)) :: ys)) = spineFrom 0 (chunksOf (xs ++ ys)) := by
  have hchunks := chunksOf_drop_empty xs ys t
  refine ⟨?_, ?_, ?_, ?_⟩
  · simp only [build_entries]
    rw [hchunks]
  · rw [hchunks]
  · rw [hchunks]
  · rw [hchunks]

/-! ## Claim C2: archive conformance -/

theorem natStr_len_pos (i : Nat) : 1 ≤ (natStr i).length := by
  have h := natDigits_ne_nil i
  have : (natStr i).length = (natDigits i).length := rfl
  rw [this]
  exact List.length_pos.mpr h

theorem oebps_fname_len (i : Nat) :
    ("OEBPS/" ++ fname i).length = 15 + (natStr i).length := by
  show ("OEBPS/" ++ ("ch_" ++ natStr i ++ ".xhtml")).length = 15 + (natStr i).length
  rw [String.length_append, String.length_append, String.length_append]
  have h1 : ("OEBPS/" : String).length = 6 := by decide
  have h2 : ("ch_" : String).length = 3 := by decide
  have h3 : (".xhtml" : String).length = 6 := by decide
  rw [h1, h2, h3]
  omega

theorem oebps_fname_ne_cover (i : Nat) : ¬("OEBPS/" ++ fname i = "OEBPS/cover.jpg") := by
  intro h
  have hl := congrArg String.length h
  rw [oebps_fname_len i] at hl
  have h15 : ("OEBPS/cover.jpg" : String).length = 15 := by decide
  rw [h15] at hl
  have := natStr_len_pos i
  omega

theorem chapterEntries_filter_cover (bt : String) :
    ∀ (chunks : List (String × List String)) (k : Nat),
      (chapterEntriesFrom bt k chunks).filter (fun e => e.name == "OEBPS/cover.jpg") = [] := by
  intro chunks
  induction chunks with
  | nil => intro k; rfl
  | cons p rest ih =>
    intro k
    obtain ⟨t, l⟩ := p
    show List.filter _ (⟨"OEBPS/" ++ fname k, EntryData.text (xhtmlFor bt k t l), false⟩
        :: chapterEntriesFrom bt (k + 1) rest) = []
    rw [List.filter_cons]
    have hne : (("OEBPS/" ++ fname k : String) == "OEBPS/cover.jpg") = false :=
      beq_eq_false_iff_ne.mpr (oebps_fname_ne_cover k)
    simp only [hne, Bool.false_eq_true, if_false]
    exact ih (k + 1)

theorem manifestCh_to_entry (bt : String) :
    ∀ (chunks : List (String × List String)) (k : Nat) (it : String × String × String),
      it ∈ manifestChFrom k chunks →
      ∃ e ∈ chapterEntriesFrom bt k chunks, e.name = "OEBPS/" ++ it.2.1 := by
  intro chunks
  induction chunks with
  | nil => intro k it hit; cases hit
  | cons p rest ih =>
    intro k it hit
    obtain ⟨t, l⟩ := p
    rcases List.mem_cons.mp hit with h | h
    · refine ⟨⟨"OEBPS/" ++ fname k, EntryData.text (xhtmlFor bt k t l), false⟩, by simp [chapterEntriesFrom], ?_⟩
      rw [h]
    · obtain ⟨e, he, hname⟩ := ih (k + 1) it h
      exact ⟨e, by simp [chapterEntriesFrom, he], hname⟩

theorem manifestCh_mediaType :
    ∀ (chunks : List (String × List String)) (k : Nat) (it : String × String × String),
      it ∈ manifestChFrom k chunks → it.2.2 = "application/xhtml+xml" := by
  intro chunks
  induction chunks with
  | nil => intro k it hit; cases hit
  | cons p rest ih =>
    intro k it hit
    rcases List.mem_cons.mp hit with h | h
    · rw [h]
    · exact ih (k + 1) it h

/-- C2: the first entry `build_epub_buffer` writes is the literal mimetype
string, stored without compression; every item of the package manifest
(ncx, stylesheet, each chapter document, optional font, optional cover) has a
corresponding archive entry written under `OEBPS/`; and the spine lists the
chapter documents `c0, c1, ...` — one `itemref` per chunk, in reading order,
with pairwise distinct idrefs, so each document appears exactly once. -/
theorem C2_archive_conformance (chapters : List (String × List String))
    (title font_type book_id : String) (has_font : Bool) (fontBytes : List Nat)
    (cover : Option (List Nat)) :
    (build_entries chapters title font_type has_font fontBytes cover book_id).head?
        = some ⟨"mimetype", EntryData.text "application/epub+zip", true⟩
    ∧ (∀ it ∈ manifestItems (chunksOf chapters) (useRIDI has_font font_type) cover.isSome,
        ∃ e ∈ build_entries chapters title font_type has_font fontBytes cover book_id,
          e.name = "OEBPS/" ++ it.2.1)
    ∧ spineFrom 0 (chunksOf chapters)
        = (List.range (chunksOf chapters).length).map cId
    ∧ ((List.range (chunksOf chapters).length).map cId).Nodup := by
  refine ⟨rfl, ?_, spineFrom_zero (chunksOf chapters), (List.nodup_range _).map cId_inj⟩
  intro it hit
  simp only [manifestItems, List.mem_cons, List.mem_append] at hit
  rcases hit with h | h | (h | h) | h
  · refine ⟨⟨"OEBPS/toc.ncx", EntryData.text (ncxFor title book_id (chunksOf chapters)), false⟩, ?_, ?_⟩
    · simp [build_entries, List.mem_append]
    · rw [h]
      show ("OEBPS/toc.ncx" : String) = "OEBPS/" ++ "toc.ncx"
      decide
  · refine ⟨⟨"OEBPS/style.css",
        EntryData.text (cssContent (useRIDI has_font font_type)), false⟩, ?_, ?_⟩
    · simp [build_entries, List.mem_append]
    · rw [h]
      show ("OEBPS/style.css" : String) = "OEBPS/" ++ "style.css"
      decide
  · obtain ⟨e, he, hname⟩ := manifestCh_to_entry title (chunksOf chapters) 0 it h
    refine ⟨e, ?_, hname⟩
    simp only [build_entries, List.mem_cons, List.mem_append]
    tauto
  · by_cases hu : useRIDI has_font font_type
    · rw [if_pos hu] at h
      rcases List.mem_singleton.mp h with rfl
      refine ⟨⟨"OEBPS/fonts/RIDIBatang.otf", EntryData.bytes fontBytes, false⟩, ?_, ?_⟩
      · simp [build_entries, hu, List.mem_append]
      · show ("OEBPS/fonts/RIDIBatang.otf" : String) = "OEBPS/" ++ "fonts/RIDIBatang.otf"
        decide
    · rw [if_neg hu] at h
      cases h
  · rcases cover with _ | cb
    · simp at h
    · simp only [Option.isSome_some, if_true] at h
      rcases List.mem_singleton.mp h with rfl
      refine ⟨⟨"OEBPS/cover.jpg", EntryData.bytes cb, false⟩, ?_, ?_⟩
      · simp [build_entries, List.mem_append]
      · show ("OEBPS/cover.jpg" : String) = "OEBPS/" ++ "cover.jpg"
        decide

/-! ## Claim C10: cover handling -/

/-- C10: when cover bytes are supplied, exactly one archive entry named
`OEBPS/cover.jpg` is written and it carries the supplied bytes unchanged
(no format inspection: the model takes arbitrary bytes), the manifest
declares `cover.jpg` with media type `image/jpeg` — the only item with that
media type — and the metadata carries the cover reference; with no cover none
of these appear. -/
theorem C10_cover_handling (chapters : List (String × List String))
    (title font_type book_id : String) (has_font : Bool) (fontBytes cb : List Nat) :
    ((build_entries chapters title font_type has_font fontBytes (some cb) book_id).filter
        (fun e => e.name == "OEBPS/cover.jpg"))
      = [⟨"OEBPS/cover.jpg", EntryData.bytes cb, false⟩]
    ∧ ("cover", "cover.jpg", "image/jpeg")
        ∈ manifestItems (chunksOf chapters) (useRIDI has_font font_type) true
    ∧ coverTag true = "<meta name=\"cover\" content=\"cover\"/>"
    ∧ ((build_entries chapters title font_type has_font fontBytes none book_id).filter
        (fun e => e.name == "OEBPS/cover.jpg")) = []
    ∧ ("cover", "cover.jpg", "image/jpeg")
        ∉ manifestItems (chunksOf chapters) (useRIDI has_font font_type) false
    ∧ coverTag false = "" := by
  have hmime : (("mimetype" : String) == "OEBPS/cover.jpg") = false := by decide
  have hcont : (("META-INF/container.xml" : String) == "OEBPS/cover.jpg") = false := by decide
  have hfont : (("OEBPS/fonts/RIDIBatang.otf" : String) == "OEBPS/cover.jpg") = false := by decide
  have hcss : (("OEBPS/style.css" : String) == "OEBPS/cover.jpg") = false := by decide
  have htoc : (("OEBPS/toc.ncx" : String) == "OEBPS/cover.jpg") = false := by decide
  have hopf : (("OEBPS/content.opf" : String) == "OEBPS/cover.jpg") = false := by decide
  have hcov : (("OEBPS/cover.jpg" : String) == "OEBPS/cover.jpg") = true := by decide
  have hch := chapterEntries_filter_cover title (chunksOf chapters) 0
  refine ⟨?_, ?_, rfl, ?_, ?_, rfl⟩
  · by_cases hu : useRIDI has_font font_type <;>
      simp [build_entries, hu, List.filter_append, List.filter_cons,
        hmime, hcont, hfont, hcss, htoc, hopf, hcov, hch]
  · simp [manifestItems, List.mem_append]
  · by_cases hu : useRIDI has_font font_type <;>
      simp [build_entries, hu, List.filter_append, List.filter_cons,
        hmime, hcont, hfont, hcss, htoc, hopf, hch]
  · intro hmem
    simp only [manifestItems, List.mem_cons, List.mem_append] at hmem
    rcases hmem with h | h | (h | h) | h
    · exact absurd h (by decide)
    · exact absurd h (by decide)
    · have := manifestCh_mediaType (chunksOf chapters) 0 _ h
      exact absurd this (by decide)
    · by_cases hu : useRIDI has_font font_type
      · rw [if_pos hu] at h
        exact absurd (List.mem_singleton.mp h) (by decide)
      · rw [if_neg hu] at h
        cases h
    · simp at h

end EpubConv
